import Mathlib

/-!
Verification development for the moto_gorod-notifier slot-discovery engine.

The embedding covers:
* `buildKey` — the slot deduplication key (`internal/notifier/notifier.go`);
* the response parsers of the YCLIENTS client (`parseStaffIDs`, `parseTimeslots`),
  modelled over already-decoded response envelopes;
* the per-tick sweep `checkAndNotify` (`internal/notifier/notifier.go`), modelled
  as a pure function from the upstream responses, the fault behaviour of the
  dedup storage, the subscriber list and the current seen-set to the new seen-set
  plus a trace of the effects the tick performs;
* the session-token lifecycle of the YCLIENTS client (`authenticate`, `getToken`).
-/

/-- Mirrors `buildKey` in `internal/notifier/notifier.go`:
`fmt.Sprintf("svc=%d|staff=%d|dt=%s", serviceID, staffID, datetime)`.
Go's `%d` on `int` prints a signed decimal, which is exactly `toString : Int → String`. -/
def buildKey (serviceID staffID : Int) (datetime : String) : String :=
  "svc=" ++ toString serviceID ++ "|staff=" ++ toString staffID ++ "|dt=" ++ datetime

/-- Numeric value of a decimal digit character. -/
def digitVal (c : Char) : Nat := c.toNat - 48

/-- Fold a run of decimal digit characters onto an accumulator, most significant first. -/
def charsValFrom (a : Nat) (l : List Char) : Nat :=
  l.foldl (fun a c => 10 * a + digitVal c) a

/-- Numeric value of a list of decimal digit characters. -/
def charsVal (l : List Char) : Nat := charsValFrom 0 l

/-- Number of decimal digits of `n` (1 for `n < 10`). -/
def digitCount (n : Nat) : Nat :=
  if n < 10 then 1 else digitCount (n / 10) + 1
termination_by n
decreasing_by omega

/-- One entry of a decoded YCLIENTS response envelope; mirrors `apiObject[T]` in the
client (`type`, `id`, `attributes` fields; `Type` is renamed `objType` here). The
envelope itself (`apiResponse[T]`) is its `data` array, i.e. a `List (apiObject T)`;
we model parsing after JSON decoding of the envelope has succeeded. -/
structure apiObject (T : Type) where
  objType : String
  ID : String
  Attributes : T

/-- Mirrors `StaffAttributes` (the `price_min`/`price_max` fields are unused by the
parser and omitted). -/
structure StaffAttributes where
  IsBookable : Bool

/-- Mirrors `TimeslotAttributes`. -/
structure TimeslotAttributes where
  Datetime : String
  Time : String
  IsBookable : Bool

/-- Models `fmt.Sscanf(s, "%d", &sid)`: skip leading blanks, optionally a sign, then
scan a non-empty run of decimal digits (scanning stops at the first non-digit);
`none` when no digit is found. -/
def scanInt (s : String) : Option Int :=
  let l := s.data.dropWhile (fun c => c = ' ')
  match l with
  | '-' :: rest =>
    let ds := rest.takeWhile Char.isDigit
    if ds.isEmpty then none else some (-(charsVal ds : Int))
  | '+' :: rest =>
    let ds := rest.takeWhile Char.isDigit
    if ds.isEmpty then none else some ((charsVal ds : Int))
  | _ =>
    let ds := l.takeWhile Char.isDigit
    if ds.isEmpty then none else some ((charsVal ds : Int))

/-- Mirrors `parseStaffIDs` in the YCLIENTS client: iterate over the decoded `data`
array, skip entries not flagged bookable, scan the string id as a decimal integer
and silently skip entries whose id does not scan. -/
def parseStaffIDs (data : List (apiObject StaffAttributes)) : List Int :=
  data.foldl (fun ids it =>
    if !it.Attributes.IsBookable then ids
    else
      match scanInt it.ID with
      | none => ids
      | some sid => ids ++ [sid]) []

/-- Mirrors `parseTimeslots` in the YCLIENTS client: for each bookable entry append
its `datetime` when non-empty, otherwise its bare `time` when non-empty. -/
def parseTimeslots (data : List (apiObject TimeslotAttributes)) : List String :=
  data.foldl (fun out it =>
    if it.Attributes.IsBookable then
      if it.Attributes.Datetime ≠ "" then out ++ [it.Attributes.Datetime]
      else if it.Attributes.Time ≠ "" then out ++ [it.Attributes.Time]
      else out
    else out) []

/-- The per-record timeslot selection rule as the spec words it ("Falls back to a bare
time-of-day string if no full datetime is present in a given record"; only bookable
records are surfaced). A second, spec-side definition used to state claim C7 as a
refinement of `parseTimeslots`. -/
def specTimeslotChoice (it : apiObject TimeslotAttributes) : Option String :=
  if it.Attributes.IsBookable then
    if it.Attributes.Datetime ≠ "" then some it.Attributes.Datetime
    else if it.Attributes.Time ≠ "" then some it.Attributes.Time
    else none
  else none

/-- The configuration fields of `notifier.Options` that `checkAndNotify` branches on
(`Interval` only drives the outer timer, `Timezone` only the value of `today`,
which we pass explicitly). -/
structure NotifierOptions where
  LocationID : Int
  ServiceIDs : List Int

/-- The three YCLIENTS listing calls as the sweep sees them, one tick's worth of
upstream responses. Argument order mirrors the Go methods:
`GetBookableStaffIDs(locationID, serviceID)`,
`GetBookableDates(locationID, serviceID, dateFrom, dateTo, staffID)`,
`GetBookableTimeslots(locationID, serviceID, date, staffID)`.
`Except Unit` stands for Go's `(result, error)` pair (the sweep never inspects the
error value, it only logs it). -/
structure Upstream where
  getStaff : Int → Int → Except Unit (List Int)
  getDates : Int → Int → String → String → Int → Except Unit (List String)
  getTimes : Int → Int → String → Int → Except Unit (List String)

/-- Fault behaviour of the `Storage` interface as `checkAndNotify` consumes it:
whether `IsSlotSeen`/`MarkSlotSeen` return an error for a given key, and whether
`CleanOldSlots` returns an error. A failing `MarkSlotSeen` inserts nothing. -/
structure Faults where
  isSeenFail : String → Bool
  markFail : String → Bool
  cleanFail : Bool

/-- The storage behaving normally: no call errors. -/
def noFaults : Faults :=
  { isSeenFail := fun _ => false, markFail := fun _ => false, cleanFail := false }

/-- Trace of the observable effects of one tick: the listing calls made, the dedup
oracle calls, the notifications sent (`(chatID, serviceID, staffID, datetime)` per
`bot.Notify` call), the pruning calls (retention window argument in nanoseconds),
and the two tick counters. -/
structure Emit where
  staffCalls : List Int := []
  dateCalls : List (Int × Int) := []
  timeCalls : List (Int × Int × String) := []
  seenChecks : List String := []
  markCalls : List String := []
  notifs : List (Int × Int × Int × String) := []
  pruneCalls : List Nat := []
  newSlotsFound : Nat := 0
  totalChecks : Nat := 0

instance : Append Emit :=
  ⟨fun a b =>
    { staffCalls := a.staffCalls ++ b.staffCalls
      dateCalls := a.dateCalls ++ b.dateCalls
      timeCalls := a.timeCalls ++ b.timeCalls
      seenChecks := a.seenChecks ++ b.seenChecks
      markCalls := a.markCalls ++ b.markCalls
      notifs := a.notifs ++ b.notifs
      pruneCalls := a.pruneCalls ++ b.pruneCalls
      newSlotsFound := a.newSlotsFound + b.newSlotsFound
      totalChecks := a.totalChecks + b.totalChecks }⟩

/-- The far-future sentinel date of `checkAndNotify`. -/
def farFuture : String := "9999-01-01"

/-- `time.Hour` in nanoseconds (Go `time.Duration` counts nanoseconds). -/
def hourNS : Nat := 3600000000000

/-- The fixed retention window `7 * 24 * time.Hour` passed to `CleanOldSlots`. -/
def cleanRetention : Nat := 7 * 24 * hourNS

/-- Innermost loop body of `checkAndNotify` (notifier.go, the `for _, t := range times`
body): count the check, build the key, ask `IsSlotSeen` (an error skips the slot), skip
seen slots; otherwise call `MarkSlotSeen` (an error is only logged — the key is then
not inserted), count a new slot and notify every current subscriber. -/
def processSlot (f : Faults) (subs : List Int) (serviceID staffID : Int) (t : String)
    (seen : List String) : List String × Emit :=
  let key := buildKey serviceID staffID t
  if f.isSeenFail key then
    (seen, { seenChecks := [key], totalChecks := 1 })
  else if key ∈ seen then
    (seen, { seenChecks := [key], totalChecks := 1 })
  else
    let seen' := if f.markFail key then seen else key :: seen
    (seen',
      { seenChecks := [key], totalChecks := 1, markCalls := [key], newSlotsFound := 1,
        notifs := subs.map (fun chatID => (chatID, serviceID, staffID, t)) })

/-- The `for _, t := range times` loop. -/
def processSlots (f : Faults) (subs : List Int) (serviceID staffID : Int)
    (times : List String) (seen : List String) : List String × Emit :=
  match times with
  | [] => (seen, {})
  | t :: rest =>
    let r1 := processSlot f subs serviceID staffID t seen
    let r2 := processSlots f subs serviceID staffID rest r1.1
    (r2.1, r1.2 ++ r2.2)

/-- Body of the `for _, date := range dates` loop: fetch timeslots (an error skips
this date) and process them. -/
def processDate (up : Upstream) (f : Faults) (subs : List Int)
    (locationID serviceID staffID : Int) (date : String) (seen : List String) :
    List String × Emit :=
  match up.getTimes locationID serviceID date staffID with
  | .error _ => (seen, { timeCalls := [(serviceID, staffID, date)] })
  | .ok times =>
    let r := processSlots f subs serviceID staffID times seen
    (r.1, ({ timeCalls := [(serviceID, staffID, date)] } : Emit) ++ r.2)

/-- The `for _, date := range dates` loop. -/
def processDates (up : Upstream) (f : Faults) (subs : List Int)
    (locationID serviceID staffID : Int) (dates : List String) (seen : List String) :
    List String × Emit :=
  match dates with
  | [] => (seen, {})
  | d :: rest =>
    let r1 := processDate up f subs locationID serviceID staffID d seen
    let r2 := processDates up f subs locationID serviceID staffID rest r1.1
    (r2.1, r1.2 ++ r2.2)

/-- Body of the `for _, staffID := range staffIDs` loop: fetch bookable dates from
`today` through the far-future sentinel (an error skips this staff member). -/
def processStaff (up : Upstream) (f : Faults) (subs : List Int)
    (locationID serviceID staffID : Int) (today : String) (seen : List String) :
    List String × Emit :=
  match up.getDates locationID serviceID today farFuture staffID with
  | .error _ => (seen, { dateCalls := [(serviceID, staffID)] })
  | .ok dates =>
    let r := processDates up f subs locationID serviceID staffID dates seen
    (r.1, ({ dateCalls := [(serviceID, staffID)] } : Emit) ++ r.2)

/-- The `for _, staffID := range staffIDs` loop. -/
def processStaffList (up : Upstream) (f : Faults) (subs : List Int)
    (locationID serviceID : Int) (staffIDs : List Int) (today : String)
    (seen : List String) : List String × Emit :=
  match staffIDs with
  | [] => (seen, {})
  | sid :: rest =>
    let r1 := processStaff up f subs locationID serviceID sid today seen
    let r2 := processStaffList up f subs locationID serviceID rest today r1.1
    (r2.1, r1.2 ++ r2.2)

/-- Body of the `for _, serviceID := range n.opts.ServiceIDs` loop: fetch bookable
staff (an error, or an empty staff list, skips this service). -/
def processService (up : Upstream) (f : Faults) (subs : List Int)
    (locationID serviceID : Int) (today : String) (seen : List String) :
    List String × Emit :=
  match up.getStaff locationID serviceID with
  | .error _ => (seen, { staffCalls := [serviceID] })
  | .ok staffIDs =>
    if staffIDs.isEmpty then (seen, { staffCalls := [serviceID] })
    else
      let r := processStaffList up f subs locationID serviceID staffIDs today seen
      (r.1, ({ staffCalls := [serviceID] } : Emit) ++ r.2)

/-- The `for _, serviceID := range n.opts.ServiceIDs` loop. -/
def processServices (up : Upstream) (f : Faults) (subs : List Int)
    (locationID : Int) (serviceIDs : List Int) (today : String) (seen : List String) :
    List String × Emit :=
  match serviceIDs with
  | [] => (seen, {})
  | svc :: rest =>
    let r1 := processService up f subs locationID svc today seen
    let r2 := processServices up f subs locationID rest today r1.1
    (r2.1, r1.2 ++ r2.2)

/-- One tick: `checkAndNotify` in `internal/notifier/notifier.go`. The configuration
guard (`len(ServiceIDs) == 0 || LocationID == 0`) skips the whole tick — including
the `CleanOldSlots` call, which sits after the sweep. Otherwise sweep every service
and finish with exactly one `CleanOldSlots(7 * 24 * time.Hour)` call (whose error is
only logged, so the trace and state do not depend on `Faults.cleanFail`). `today` is
the date string the tick computes from the clock and configured timezone. -/
def checkAndNotify (opts : NotifierOptions) (up : Upstream) (f : Faults)
    (subs : List Int) (today : String) (seen : List String) : List String × Emit :=
  if opts.ServiceIDs.isEmpty || opts.LocationID == 0 then (seen, {})
  else
    let r := processServices up f subs opts.LocationID opts.ServiceIDs today seen
    (r.1, r.2 ++ ({ pruneCalls := [cleanRetention] } : Emit))

/-- Keys contributed by one timeslot list. -/
def slotKeys (serviceID staffID : Int) (times : List String) : List String :=
  times.map (buildKey serviceID staffID)

/-- Keys the sweep encounters while walking one staff member's date list. -/
def dateKeys (up : Upstream) (locationID serviceID staffID : Int)
    (dates : List String) : List String :=
  match dates with
  | [] => []
  | d :: rest =>
    (match up.getTimes locationID serviceID d staffID with
     | .error _ => []
     | .ok times => slotKeys serviceID staffID times)
      ++ dateKeys up locationID serviceID staffID rest

/-- Keys the sweep encounters while walking one service's staff list. -/
def staffKeys (up : Upstream) (locationID serviceID : Int) (staffIDs : List Int)
    (today : String) : List String :=
  match staffIDs with
  | [] => []
  | sid :: rest =>
    (match up.getDates locationID serviceID today farFuture sid with
     | .error _ => []
     | .ok dates => dateKeys up locationID serviceID sid dates)
      ++ staffKeys up locationID serviceID rest today

/-- Keys the sweep encounters over a list of services. -/
def serviceKeys (up : Upstream) (locationID : Int) (serviceIDs : List Int)
    (today : String) : List String :=
  match serviceIDs with
  | [] => []
  | svc :: rest =>
    (match up.getStaff locationID svc with
     | .error _ => []
     | .ok staffIDs =>
       if staffIDs.isEmpty then [] else staffKeys up locationID svc staffIDs today)
      ++ serviceKeys up locationID rest today

/-- Replace the staff listing result at one service. -/
def overrideStaff (up : Upstream) (serviceID : Int) (r : Except Unit (List Int)) :
    Upstream :=
  { up with getStaff := fun l v => if v = serviceID then r else up.getStaff l v }

/-- Replace the date listing result at one `(service, staff)` pair. -/
def overrideDates (up : Upstream) (serviceID staffID : Int)
    (r : Except Unit (List String)) : Upstream :=
  { up with
    getDates := fun l v df dt s =>
      if v = serviceID ∧ s = staffID then r else up.getDates l v df dt s }

/-- Replace the timeslot listing result at one `(service, staff, date)` triple. -/
def overrideTimes (up : Upstream) (serviceID staffID : Int) (date : String)
    (r : Except Unit (List String)) : Upstream :=
  { up with
    getTimes := fun l v d s =>
      if v = serviceID ∧ s = staffID ∧ d = date then r else up.getTimes l v d s }

/-- Mutable token state of the YCLIENTS `Client` (`userToken`, `tokenExp`); instants
are modelled as seconds on a discrete clock. -/
structure ClientState where
  userToken : String
  tokenExp : Nat

/-- A freshly constructed client: empty token, zero expiry. -/
def initialClient : ClientState := { userToken := "", tokenExp := 0 }

/-- The provider token lifetime the code works against (the 5 minutes named by its
"token_expires_in: 5m" log field), in seconds. -/
def tokenLifetime : Nat := 5 * 60

/-- The safety margin: the code refreshes `4*time.Minute + 30*time.Second` after
issuance, i.e. 30 seconds before the 5-minute provider expiry. -/
def refreshMargin : Nat := 30

/-- Outcome of one login exchange attempt: whether the HTTP + status-201 + JSON +
`success` checks all passed, and the `user_token` the response carried. -/
structure AuthExchange where
  success : Bool
  userToken : String

/-- Result of one `authenticate` call: the client state after it, whether a login
exchange was performed, and whether the call returned without error. -/
structure AuthResult where
  state : ClientState
  loggedIn : Bool
  ok : Bool

/-- Mirrors `Client.authenticate`: if `time.Now().Before(c.tokenExp)` the token is
still valid and no login happens; otherwise perform the login exchange — on success
(which requires a non-empty `user_token`) store the token and set
`tokenExp = now + (4*time.Minute + 30*time.Second)`; on failure leave the state
unchanged and return the error. -/
def authenticate (st : ClientState) (now : Nat) (ex : AuthExchange) : AuthResult :=
  if now < st.tokenExp then { state := st, loggedIn := false, ok := true }
  else if ex.success && ex.userToken != "" then
    { state := { userToken := ex.userToken, tokenExp := now + (4 * 60 + 30) },
      loggedIn := true, ok := true }
  else { state := st, loggedIn := true, ok := false }

/-- Client states reachable from a fresh client through `authenticate` calls. -/
inductive ReachableClient : ClientState → Prop where
  | init : ReachableClient initialClient
  | step (st : ClientState) (now : Nat) (ex : AuthExchange) :
      ReachableClient st → ReachableClient (authenticate st now ex).state

/-- The authorization header `makeRequest` builds once `getToken` succeeded: partner
credential always, plus the user token when present. -/
def authHeader (partnerToken userToken : String) : String :=
  if userToken != "" then "Bearer " ++ partnerToken ++ ", User " ++ userToken
  else "Bearer " ++ partnerToken

/-- Two listing-call results the sweep cannot tell apart: either literally equal, or
both are "nothing to walk" — an error (which the sweep logs and skips) or an empty
list (which makes the corresponding loop run zero times). -/
def listingEqv {α : Type} (r1 r2 : Except Unit (List α)) : Prop :=
  r1 = r2 ∨ ((r1 = .error () ∨ r1 = .ok []) ∧ (r2 = .error () ∨ r2 = .ok []))

/-- Per-record selection `parseStaffIDs` implements: bookable entries whose string id
scans as a decimal integer. Used to characterise `parseStaffIDs` in claim C6. -/
def staffPick (it : apiObject StaffAttributes) : Option Int :=
  if it.Attributes.IsBookable then scanInt it.ID else none

/-- The first-discovery scenario upstream (spec §8): service 100 has the single
bookable staff member 42, one bookable date `2025-06-01`, and the single bookable
timeslot `2025-06-01T10:00:00+03:00`; nothing else is bookable. -/
def upFirstDiscovery : Upstream where
  getStaff := fun _ svc => if svc = 100 then .ok [42] else .ok []
  getDates := fun _ svc _ _ sid =>
    if svc = 100 ∧ sid = 42 then .ok ["2025-06-01"] else .ok []
  getTimes := fun _ svc d sid =>
    if svc = 100 ∧ sid = 42 ∧ d = "2025-06-01" then
      .ok ["2025-06-01T10:00:00+03:00"]
    else .ok []

/-- Configuration for the first-discovery scenario: one service `100`, a set
(non-zero) location id. -/
def optsFirstDiscovery : NotifierOptions := { LocationID := 1, ServiceIDs := [100] }

/-! ### Decimal representation facts used for slot-key injectivity -/

theorem toString_int_eq_repr (i : Int) : toString i = Int.repr i := by
  cases i <;> rfl

theorem digitVal_digitChar {n : Nat} (h : n < 10) : digitVal (Nat.digitChar n) = n := by
  interval_cases n <;> decide

theorem isDigit_digitChar {n : Nat} (h : n < 10) : (Nat.digitChar n).isDigit = true := by
  interval_cases n <;> decide

theorem charsValFrom_cons (a : Nat) (c : Char) (l : List Char) :
    charsValFrom a (c :: l) = charsValFrom (10 * a + digitVal c) l := rfl

theorem toDigitsCore_charsValFrom (fuel : Nat) :
    ∀ (n : Nat), n < fuel → ∀ (ds : List Char) (a : Nat),
      charsValFrom a (Nat.toDigitsCore 10 fuel n ds)
        = charsValFrom (a * 10 ^ digitCount n + n) ds := by
  induction fuel with
  | zero => intro n h; omega
  | succ f ih =>
    intro n h ds a
    have hmod : n % 10 < 10 := Nat.mod_lt _ (by omega)
    by_cases h10 : n / 10 = 0
    · have hn10 : n < 10 := by omega
      have hdc : digitCount n = 1 := by rw [digitCount]; simp [hn10]
      simp only [Nat.toDigitsCore, h10, if_true, charsValFrom_cons,
        digitVal_digitChar hmod]
      have : n % 10 = n := Nat.mod_eq_of_lt hn10
      rw [this, hdc]
      ring_nf
    · have hlt : n / 10 < f := by omega
      have hdc : digitCount n = digitCount (n / 10) + 1 := by
        rw [digitCount]; simp [show ¬ n < 10 by omega]
      simp only [Nat.toDigitsCore, h10, if_false]
      rw [ih (n / 10) hlt, charsValFrom_cons, digitVal_digitChar hmod, hdc]
      congr 1
      have hdm : 10 * (n / 10) + n % 10 = n := Nat.div_add_mod n 10
      generalize digitCount (n / 10) = k
      generalize hq : n / 10 = q at hdm
      generalize hr : n % 10 = r at hdm
      subst hdm
      ring

theorem charsVal_natRepr (n : Nat) : charsVal (Nat.repr n).data = n := by
  have h : charsValFrom 0 (Nat.toDigitsCore 10 (n + 1) n [])
      = charsValFrom (0 * 10 ^ digitCount n + n) [] :=
    toDigitsCore_charsValFrom (n + 1) n (Nat.lt_succ_self n) [] 0
  have h2 : charsValFrom (0 * 10 ^ digitCount n + n) ([] : List Char) = n := by
    show 0 * 10 ^ digitCount n + n = n
    ring
  exact h.trans h2

theorem natRepr_injective {m n : Nat} (h : Nat.repr m = Nat.repr n) : m = n := by
  have hm := charsVal_natRepr m
  rw [h, charsVal_natRepr] at hm
  omega

theorem mem_toDigitsCore (fuel : Nat) :
    ∀ (n : Nat) (ds : List Char) (c : Char), c ∈ Nat.toDigitsCore 10 fuel n ds →
      c ∈ ds ∨ c.isDigit = true := by
  induction fuel with
  | zero => intro n ds c h; exact Or.inl h
  | succ f ih =>
    intro n ds c h
    have hmod : n % 10 < 10 := Nat.mod_lt _ (by omega)
    by_cases h10 : n / 10 = 0
    · simp only [Nat.toDigitsCore, h10, if_true] at h
      rcases List.mem_cons.mp h with h | h
      · exact Or.inr (h ▸ isDigit_digitChar hmod)
      · exact Or.inl h
    · simp only [Nat.toDigitsCore, h10, if_false] at h
      rcases ih (n / 10) (Nat.digitChar (n % 10) :: ds) c h with h | h
      · rcases List.mem_cons.mp h with h | h
        · exact Or.inr (h ▸ isDigit_digitChar hmod)
        · exact Or.inl h
      · exact Or.inr h

theorem mem_natRepr_isDigit {n : Nat} {c : Char} (h : c ∈ (Nat.repr n).data) :
    c.isDigit = true := by
  have h' : c ∈ Nat.toDigitsCore 10 (n + 1) n [] := h
  rcases mem_toDigitsCore (n + 1) n [] c h' with h | h
  · cases h
  · exact h

theorem intRepr_injective {i j : Int} (h : Int.repr i = Int.repr j) : i = j := by
  cases i with
  | ofNat m =>
    cases j with
    | ofNat n => exact congrArg Int.ofNat (natRepr_injective h)
    | negSucc n =>
      exfalso
      have hd : (Nat.repr m).data = '-' :: (Nat.repr (n + 1)).data := congrArg String.data h
      have hmem : ('-' : Char) ∈ (Nat.repr m).data := by
        rw [hd]; exact List.mem_cons_self _ _
      have := mem_natRepr_isDigit hmem
      simp at this
  | negSucc m =>
    cases j with
    | ofNat n =>
      exfalso
      have hd : '-' :: (Nat.repr (m + 1)).data = (Nat.repr n).data := congrArg String.data h
      have hmem : ('-' : Char) ∈ (Nat.repr n).data := by
        rw [← hd]; exact List.mem_cons_self _ _
      have := mem_natRepr_isDigit hmem
      simp at this
    | negSucc n =>
      have hd : '-' :: (Nat.repr (m + 1)).data = '-' :: (Nat.repr (n + 1)).data :=
        congrArg String.data h
      have hdata : (Nat.repr (m + 1)).data = (Nat.repr (n + 1)).data :=
        List.tail_eq_of_cons_eq hd
      have hsub : m + 1 = n + 1 := natRepr_injective (by ext1; exact hdata)
      exact congrArg Int.negSucc (by omega)

theorem mem_intRepr {i : Int} {c : Char} (h : c ∈ (Int.repr i).data) :
    c = '-' ∨ c.isDigit = true := by
  cases i with
  | ofNat m => exact Or.inr (mem_natRepr_isDigit h)
  | negSucc m =>
    have h' : c ∈ '-' :: (Nat.repr (m + 1)).data := h
    rcases List.mem_cons.mp h' with h | h
    · exact Or.inl h
    · exact Or.inr (mem_natRepr_isDigit h)

theorem pipe_not_mem_intRepr (i : Int) : ('|' : Char) ∉ (Int.repr i).data := by
  intro h
  rcases mem_intRepr h with h | h <;> simp at h

theorem append_pipe_inj :
    ∀ (a b x y : List Char), ('|' : Char) ∉ a → ('|' : Char) ∉ b →
      a ++ '|' :: x = b ++ '|' :: y → a = b ∧ x = y := by
  intro a
  induction a with
  | nil =>
    intro b x y _ hb h
    cases b with
    | nil =>
      simp only [List.nil_append] at h
      exact ⟨rfl, List.tail_eq_of_cons_eq h⟩
    | cons d b' =>
      exfalso
      simp only [List.nil_append, List.cons_append] at h
      have : d = '|' := (List.head_eq_of_cons_eq h).symm
      exact hb (this ▸ List.mem_cons_self d b')
  | cons c a' ih =>
    intro b x y ha hb h
    cases b with
    | nil =>
      exfalso
      simp only [List.cons_append, List.nil_append] at h
      have : c = '|' := List.head_eq_of_cons_eq h
      exact ha (this ▸ List.mem_cons_self c a')
    | cons d b' =>
      simp only [List.cons_append] at h
      have hcd : c = d := List.head_eq_of_cons_eq h
      have htl := List.tail_eq_of_cons_eq h
      have ha' : ('|' : Char) ∉ a' := fun hh => ha (List.mem_cons_of_mem _ hh)
      have hb' : ('|' : Char) ∉ b' := fun hh => hb (List.mem_cons_of_mem _ hh)
      obtain ⟨h1, h2⟩ := ih b' x y ha' hb' htl
      exact ⟨by rw [hcd, h1], h2⟩

theorem string_data_append (s t : String) : (s ++ t).data = s.data ++ t.data := rfl

theorem buildKey_data (svc sid : Int) (dt : String) :
    (buildKey svc sid dt).data
      = ("svc=".data ++ (Int.repr svc).data)
        ++ '|' :: (("staff=".data ++ (Int.repr sid).data)
        ++ '|' :: ("dt=".data ++ dt.data)) := by
  rw [buildKey, toString_int_eq_repr, toString_int_eq_repr]
  simp only [string_data_append, List.append_assoc]
  rfl

theorem pipe_not_mem_svc (svc : Int) :
    ('|' : Char) ∉ ("svc=".data ++ (Int.repr svc).data) := by
  intro h
  rcases List.mem_append.mp h with h | h
  · simp at h
  · exact pipe_not_mem_intRepr svc h

theorem pipe_not_mem_staff (sid : Int) :
    ('|' : Char) ∉ ("staff=".data ++ (Int.repr sid).data) := by
  intro h
  rcases List.mem_append.mp h with h | h
  · simp at h
  · exact pipe_not_mem_intRepr sid h

/-! ### Emit trace algebra -/

theorem Emit.append_eq (a b : Emit) :
    a ++ b =
      { staffCalls := a.staffCalls ++ b.staffCalls
        dateCalls := a.dateCalls ++ b.dateCalls
        timeCalls := a.timeCalls ++ b.timeCalls
        seenChecks := a.seenChecks ++ b.seenChecks
        markCalls := a.markCalls ++ b.markCalls
        notifs := a.notifs ++ b.notifs
        pruneCalls := a.pruneCalls ++ b.pruneCalls
        newSlotsFound := a.newSlotsFound + b.newSlotsFound
        totalChecks := a.totalChecks + b.totalChecks } := rfl

/-! ### Claim C3 — the slot key is pure and injective -/

/-- C3: The slot key is a pure deterministic function of
`(serviceID, staffID, datetime)` — in this embedding `buildKey` is a plain function
of exactly those three arguments, so computing it twice on the same inputs yields
the same string and no clock or randomness can enter — and it is injective: two
input triples yield the same key exactly when they agree in every field, so triples
differing in at least one field yield different key strings. -/
theorem c3_buildKey_pure_injective (s1 t1 : Int) (d1 : String) (s2 t2 : Int) (d2 : String) :
    buildKey s1 t1 d1 = buildKey s2 t2 d2 ↔ s1 = s2 ∧ t1 = t2 ∧ d1 = d2 := by
  constructor
  · intro h
    have hd := congrArg String.data h
    rw [buildKey_data, buildKey_data] at hd
    obtain ⟨hA, htail⟩ :=
      append_pipe_inj _ _ _ _ (pipe_not_mem_svc s1) (pipe_not_mem_svc s2) hd
    have hs : s1 = s2 := intRepr_injective (by ext1; exact List.append_cancel_left hA)
    obtain ⟨hB, hdt⟩ :=
      append_pipe_inj _ _ _ _ (pipe_not_mem_staff t1) (pipe_not_mem_staff t2) htail
    have ht : t1 = t2 := intRepr_injective (by ext1; exact List.append_cancel_left hB)
    have hdd : d1 = d2 := by ext1; exact List.append_cancel_left hdt
    exact ⟨hs, ht, hdd⟩
  · rintro ⟨rfl, rfl, rfl⟩
    rfl

/-! ### Claims C6 and C7 — response parsing -/

theorem parseStaffIDs_go (data : List (apiObject StaffAttributes)) (acc : List Int) :
    data.foldl (fun ids it =>
      if !it.Attributes.IsBookable then ids
      else
        match scanInt it.ID with
        | none => ids
        | some sid => ids ++ [sid]) acc
      = acc ++ data.filterMap staffPick := by
  induction data generalizing acc with
  | nil => simp
  | cons it rest ih =>
    simp only [List.foldl_cons, List.filterMap_cons, ih]
    by_cases hb : it.Attributes.IsBookable = true
    · rcases hsc : scanInt it.ID with _ | sid
      · simp [staffPick, hb, hsc]
      · simp [staffPick, hb, hsc]
    · simp [staffPick, hb]

theorem parseStaffIDs_eq_filterMap (data : List (apiObject StaffAttributes)) :
    parseStaffIDs data = data.filterMap staffPick := by
  rw [parseStaffIDs]
  simpa using parseStaffIDs_go data []

/-- C6: `parseStaffIDs` surfaces only entries flagged bookable, and a non-numeric
identifier is skipped without failing the whole call: every returned id comes from
a bookable record whose id scans, and for every decoded envelope containing one
record whose id does not scan, the result is exactly the concatenation of what the
records before and after it yield. -/
theorem c6_parseStaffIDs_skips_malformed :
    (∀ (data : List (apiObject StaffAttributes)) (i : Int), i ∈ parseStaffIDs data →
      ∃ it, it ∈ data ∧ it.Attributes.IsBookable = true ∧ scanInt it.ID = some i)
    ∧ (∀ (xs ys : List (apiObject StaffAttributes)) (bad : apiObject StaffAttributes),
        scanInt bad.ID = none →
        parseStaffIDs (xs ++ bad :: ys) = parseStaffIDs xs ++ parseStaffIDs ys) := by
  constructor
  · intro data i hi
    rw [parseStaffIDs_eq_filterMap] at hi
    obtain ⟨it, hmem, hpick⟩ := List.mem_filterMap.mp hi
    refine ⟨it, hmem, ?_⟩
    by_cases hb : it.Attributes.IsBookable = true
    · rw [staffPick, if_pos hb] at hpick
      exact ⟨hb, hpick⟩
    · rw [staffPick, if_neg hb] at hpick
      cases hpick
  · intro xs ys bad hbad
    rw [parseStaffIDs_eq_filterMap, parseStaffIDs_eq_filterMap, parseStaffIDs_eq_filterMap,
      List.filterMap_append, List.filterMap_cons]
    have : staffPick bad = none := by
      rw [staffPick]
      by_cases hb : bad.Attributes.IsBookable = true
      · rw [if_pos hb, hbad]
      · rw [if_neg hb]
    rw [this]

theorem c6_parseStaffIDs_skips_malformed_witness :
    (∃ it, it ∈ [apiObject.mk "staff" "42" (StaffAttributes.mk true)]
      ∧ it.Attributes.IsBookable = true ∧ scanInt it.ID = some 42)
    ∧ parseStaffIDs
        ([apiObject.mk "staff" "7" (StaffAttributes.mk true)]
          ++ (apiObject.mk "staff" "oops" (StaffAttributes.mk true))
          :: [apiObject.mk "staff" "9" (StaffAttributes.mk true)])
      = parseStaffIDs [apiObject.mk "staff" "7" (StaffAttributes.mk true)]
        ++ parseStaffIDs [apiObject.mk "staff" "9" (StaffAttributes.mk true)] :=
  ⟨c6_parseStaffIDs_skips_malformed.1
      [apiObject.mk "staff" "42" (StaffAttributes.mk true)] 42 (by decide),
    c6_parseStaffIDs_skips_malformed.2
      [apiObject.mk "staff" "7" (StaffAttributes.mk true)]
      [apiObject.mk "staff" "9" (StaffAttributes.mk true)]
      (apiObject.mk "staff" "oops" (StaffAttributes.mk true)) (by decide)⟩

theorem parseTimeslots_go (data : List (apiObject TimeslotAttributes)) (acc : List String) :
    data.foldl (fun out it =>
      if it.Attributes.IsBookable then
        if it.Attributes.Datetime ≠ "" then out ++ [it.Attributes.Datetime]
        else if it.Attributes.Time ≠ "" then out ++ [it.Attributes.Time]
        else out
      else out) acc
      = acc ++ data.filterMap specTimeslotChoice := by
  induction data generalizing acc with
  | nil => simp
  | cons it rest ih =>
    simp only [List.foldl_cons, List.filterMap_cons, ih]
    by_cases hb : it.Attributes.IsBookable = true
    · by_cases hdt : it.Attributes.Datetime = ""
      · by_cases htm : it.Attributes.Time = ""
        · simp [specTimeslotChoice, hb, hdt, htm]
        · simp [specTimeslotChoice, hb, hdt, htm]
      · simp [specTimeslotChoice, hb, hdt]
    · simp [specTimeslotChoice, hb]

/-- C7: for every decoded timeslot response, `parseTimeslots` returns exactly what
the spec's selection rule picks record by record: a bookable record contributes its
full datetime string when non-empty, otherwise its bare time-of-day string when
non-empty; non-bookable records and records with both fields empty contribute
nothing. -/
theorem c7_parseTimeslots_datetime_fallback (data : List (apiObject TimeslotAttributes)) :
    parseTimeslots data = data.filterMap specTimeslotChoice := by
  rw [parseTimeslots]
  simpa using parseTimeslots_go data []

theorem processSlots_nil (f : Faults) (subs : List Int) (serviceID staffID : Int)
    (seen : List String) :
    processSlots f subs serviceID staffID [] seen = (seen, {}) := rfl

theorem processSlots_cons (f : Faults) (subs : List Int) (serviceID staffID : Int)
    (t : String) (rest : List String) (seen : List String) :
    processSlots f subs serviceID staffID (t :: rest) seen
      = (let r1 := processSlot f subs serviceID staffID t seen
         let r2 := processSlots f subs serviceID staffID rest r1.1
         (r2.1, r1.2 ++ r2.2)) := rfl

theorem processDates_nil (up : Upstream) (f : Faults) (subs : List Int)
    (locationID serviceID staffID : Int) (seen : List String) :
    processDates up f subs locationID serviceID staffID [] seen = (seen, {}) := rfl

theorem processDates_cons (up : Upstream) (f : Faults) (subs : List Int)
    (locationID serviceID staffID : Int) (d : String) (rest : List String)
    (seen : List String) :
    processDates up f subs locationID serviceID staffID (d :: rest) seen
      = (let r1 := processDate up f subs locationID serviceID staffID d seen
         let r2 := processDates up f subs locationID serviceID staffID rest r1.1
         (r2.1, r1.2 ++ r2.2)) := rfl

theorem processStaffList_nil (up : Upstream) (f : Faults) (subs : List Int)
    (locationID serviceID : Int) (today : String) (seen : List String) :
    processStaffList up f subs locationID serviceID [] today seen = (seen, {}) := rfl

theorem processStaffList_cons (up : Upstream) (f : Faults) (subs : List Int)
    (locationID serviceID : Int) (sid : Int) (rest : List Int) (today : String)
    (seen : List String) :
    processStaffList up f subs locationID serviceID (sid :: rest) today seen
      = (let r1 := processStaff up f subs locationID serviceID sid today seen
         let r2 := processStaffList up f subs locationID serviceID rest today r1.1
         (r2.1, r1.2 ++ r2.2)) := rfl

theorem processServices_nil (up : Upstream) (f : Faults) (subs : List Int)
    (locationID : Int) (today : String) (seen : List String) :
    processServices up f subs locationID [] today seen = (seen, {}) := rfl

theorem processServices_cons (up : Upstream) (f : Faults) (subs : List Int)
    (locationID : Int) (svc : Int) (rest : List Int) (today : String)
    (seen : List String) :
    processServices up f subs locationID (svc :: rest) today seen
      = (let r1 := processService up f subs locationID svc today seen
         let r2 := processServices up f subs locationID rest today r1.1
         (r2.1, r1.2 ++ r2.2)) := rfl

/-! ### Claim C1 — first discovery -/

/-- C1: in a tick where exactly one service `100` has exactly one bookable staff
member `42`, one bookable date `2025-06-01` and one bookable timeslot
`2025-06-01T10:00:00+03:00`, and the dedup oracle reports the slot as not seen
(empty seen-set, no storage faults), the sweep performs exactly one `MarkSlotSeen`
call, with key exactly `svc=100|staff=42|dt=2025-06-01T10:00:00+03:00`, and sends
exactly one notification to each current subscriber (the full effect trace of the
tick is computed exactly). -/
theorem c1_first_discovery (subs : List Int) (today : String) :
    checkAndNotify optsFirstDiscovery upFirstDiscovery noFaults subs today []
      = (["svc=100|staff=42|dt=2025-06-01T10:00:00+03:00"],
          { staffCalls := [100]
            dateCalls := [(100, 42)]
            timeCalls := [(100, 42, "2025-06-01")]
            seenChecks := ["svc=100|staff=42|dt=2025-06-01T10:00:00+03:00"]
            markCalls := ["svc=100|staff=42|dt=2025-06-01T10:00:00+03:00"]
            notifs := subs.map
              (fun chatID => (chatID, 100, 42, "2025-06-01T10:00:00+03:00"))
            pruneCalls := [cleanRetention]
            newSlotsFound := 1
            totalChecks := 1 }) := by
  have hkey : buildKey 100 42 "2025-06-01T10:00:00+03:00"
      = "svc=100|staff=42|dt=2025-06-01T10:00:00+03:00" := rfl
  simp [checkAndNotify, optsFirstDiscovery, upFirstDiscovery, noFaults,
    processServices_cons, processServices_nil, processService,
    processStaffList_cons, processStaffList_nil, processStaff,
    processDates_cons, processDates_nil, processDate,
    processSlots_cons, processSlots_nil, processSlot, Emit.append_eq, hkey]

theorem emit_append_empty (a : Emit) : a ++ ({} : Emit) = a := by
  cases a
  rw [Emit.append_eq]
  simp

theorem emit_empty_append (a : Emit) : ({} : Emit) ++ a = a := by
  cases a
  rw [Emit.append_eq]
  simp

/-! ### Congruence of the sweep in its upstream and storage-fault parameters -/

theorem processSlot_congr (fA fB : Faults) (h1 : fA.isSeenFail = fB.isSeenFail)
    (h2 : fA.markFail = fB.markFail) (subs : List Int) (serviceID staffID : Int)
    (t : String) (seen : List String) :
    processSlot fA subs serviceID staffID t seen
      = processSlot fB subs serviceID staffID t seen := by
  simp only [processSlot, h1, h2]

theorem processSlots_congr (fA fB : Faults) (h1 : fA.isSeenFail = fB.isSeenFail)
    (h2 : fA.markFail = fB.markFail) (subs : List Int) (serviceID staffID : Int)
    (times : List String) : ∀ seen : List String,
    processSlots fA subs serviceID staffID times seen
      = processSlots fB subs serviceID staffID times seen := by
  induction times with
  | nil => intro seen; rfl
  | cons t rest ih =>
    intro seen
    simp only [processSlots_cons, processSlot_congr fA fB h1 h2, ih]

theorem processDate_congr (upA upB : Upstream) (fA fB : Faults)
    (ht : ∀ l v d s, listingEqv (upA.getTimes l v d s) (upB.getTimes l v d s))
    (h1 : fA.isSeenFail = fB.isSeenFail) (h2 : fA.markFail = fB.markFail)
    (subs : List Int) (locationID serviceID staffID : Int) (date : String)
    (seen : List String) :
    processDate upA fA subs locationID serviceID staffID date seen
      = processDate upB fB subs locationID serviceID staffID date seen := by
  rcases ht locationID serviceID date staffID with heq | ⟨hA, hB⟩
  · simp only [processDate, ← heq]
    rcases hr : upA.getTimes locationID serviceID date staffID with u | times
    · rfl
    · simp only [processSlots_congr fA fB h1 h2]
  · rcases hA with hA | hA <;> rcases hB with hB | hB <;>
      simp only [processDate, hA, hB, processSlots_nil, emit_append_empty]

theorem processDates_congr (upA upB : Upstream) (fA fB : Faults)
    (ht : ∀ l v d s, listingEqv (upA.getTimes l v d s) (upB.getTimes l v d s))
    (h1 : fA.isSeenFail = fB.isSeenFail) (h2 : fA.markFail = fB.markFail)
    (subs : List Int) (locationID serviceID staffID : Int) (dates : List String) :
    ∀ seen : List String,
    processDates upA fA subs locationID serviceID staffID dates seen
      = processDates upB fB subs locationID serviceID staffID dates seen := by
  induction dates with
  | nil => intro seen; rfl
  | cons d rest ih =>
    intro seen
    simp only [processDates_cons,
      processDate_congr upA upB fA fB ht h1 h2, ih]

theorem processStaff_congr (upA upB : Upstream) (fA fB : Faults)
    (hd : ∀ l v df dt s, listingEqv (upA.getDates l v df dt s) (upB.getDates l v df dt s))
    (ht : ∀ l v d s, listingEqv (upA.getTimes l v d s) (upB.getTimes l v d s))
    (h1 : fA.isSeenFail = fB.isSeenFail) (h2 : fA.markFail = fB.markFail)
    (subs : List Int) (locationID serviceID staffID : Int) (today : String)
    (seen : List String) :
    processStaff upA fA subs locationID serviceID staffID today seen
      = processStaff upB fB subs locationID serviceID staffID today seen := by
  rcases hd locationID serviceID today farFuture staffID with heq | ⟨hA, hB⟩
  · simp only [processStaff, ← heq]
    rcases hr : upA.getDates locationID serviceID today farFuture staffID with u | dates
    · rfl
    · simp only [processDates_congr upA upB fA fB ht h1 h2]
  · rcases hA with hA | hA <;> rcases hB with hB | hB <;>
      simp only [processStaff, hA, hB, processDates_nil, emit_append_empty]

theorem processStaffList_congr (upA upB : Upstream) (fA fB : Faults)
    (hd : ∀ l v df dt s, listingEqv (upA.getDates l v df dt s) (upB.getDates l v df dt s))
    (ht : ∀ l v d s, listingEqv (upA.getTimes l v d s) (upB.getTimes l v d s))
    (h1 : fA.isSeenFail = fB.isSeenFail) (h2 : fA.markFail = fB.markFail)
    (subs : List Int) (locationID serviceID : Int) (staffIDs : List Int)
    (today : String) : ∀ seen : List String,
    processStaffList upA fA subs locationID serviceID staffIDs today seen
      = processStaffList upB fB subs locationID serviceID staffIDs today seen := by
  induction staffIDs with
  | nil => intro seen; rfl
  | cons sid rest ih =>
    intro seen
    simp only [processStaffList_cons,
      processStaff_congr upA upB fA fB hd ht h1 h2, ih]

theorem processService_congr (upA upB : Upstream) (fA fB : Faults)
    (hs : ∀ l v, listingEqv (upA.getStaff l v) (upB.getStaff l v))
    (hd : ∀ l v df dt s, listingEqv (upA.getDates l v df dt s) (upB.getDates l v df dt s))
    (ht : ∀ l v d s, listingEqv (upA.getTimes l v d s) (upB.getTimes l v d s))
    (h1 : fA.isSeenFail = fB.isSeenFail) (h2 : fA.markFail = fB.markFail)
    (subs : List Int) (locationID serviceID : Int) (today : String)
    (seen : List String) :
    processService upA fA subs locationID serviceID today seen
      = processService upB fB subs locationID serviceID today seen := by
  rcases hs locationID serviceID with heq | ⟨hA, hB⟩
  · simp only [processService, ← heq]
    rcases hr : upA.getStaff locationID serviceID with u | staffIDs
    · rfl
    · simp only [processStaffList_congr upA upB fA fB hd ht h1 h2]
  · rcases hA with hA | hA <;> rcases hB with hB | hB <;>
      simp only [processService, hA, hB, List.isEmpty_nil, if_true]

theorem processServices_congr (upA upB : Upstream) (fA fB : Faults)
    (hs : ∀ l v, listingEqv (upA.getStaff l v) (upB.getStaff l v))
    (hd : ∀ l v df dt s, listingEqv (upA.getDates l v df dt s) (upB.getDates l v df dt s))
    (ht : ∀ l v d s, listingEqv (upA.getTimes l v d s) (upB.getTimes l v d s))
    (h1 : fA.isSeenFail = fB.isSeenFail) (h2 : fA.markFail = fB.markFail)
    (subs : List Int) (locationID : Int) (serviceIDs : List Int) (today : String) :
    ∀ seen : List String,
    processServices upA fA subs locationID serviceIDs today seen
      = processServices upB fB subs locationID serviceIDs today seen := by
  induction serviceIDs with
  | nil => intro seen; rfl
  | cons svc rest ih =>
    intro seen
    simp only [processServices_cons,
      processService_congr upA upB fA fB hs hd ht h1 h2, ih]

theorem checkAndNotify_congr (upA upB : Upstream) (fA fB : Faults)
    (hs : ∀ l v, listingEqv (upA.getStaff l v) (upB.getStaff l v))
    (hd : ∀ l v df dt s, listingEqv (upA.getDates l v df dt s) (upB.getDates l v df dt s))
    (ht : ∀ l v d s, listingEqv (upA.getTimes l v d s) (upB.getTimes l v d s))
    (h1 : fA.isSeenFail = fB.isSeenFail) (h2 : fA.markFail = fB.markFail)
    (opts : NotifierOptions) (subs : List Int) (today : String) (seen : List String) :
    checkAndNotify opts upA fA subs today seen
      = checkAndNotify opts upB fB subs today seen := by
  simp only [checkAndNotify,
    processServices_congr upA upB fA fB hs hd ht h1 h2]

/-! ### Claim C5 — fail-soft sweep -/

/-- C5: no single listing failure aborts the rest of the sweep. A tick in which the
bookable-dates fetch fails for one staff member of one service is observably
identical — same final seen-set, same trace of calls, marks and notifications — to
the tick in which that fetch returns an empty date list; so every other staff member
and every other configured service is still processed and may still produce new-slot
notifications. The same holds for a failing staff fetch of one service and for a
failing timeslot fetch of one `(service, staff, date)` triple. -/
theorem c5_failsoft_single_failure (up : Upstream) (f : Faults) (opts : NotifierOptions)
    (subs : List Int) (today : String) (seen : List String) (svc sid : Int) (d : String) :
    (checkAndNotify opts (overrideDates up svc sid (.error ())) f subs today seen
        = checkAndNotify opts (overrideDates up svc sid (.ok [])) f subs today seen)
    ∧ (checkAndNotify opts (overrideStaff up svc (.error ())) f subs today seen
        = checkAndNotify opts (overrideStaff up svc (.ok [])) f subs today seen)
    ∧ (checkAndNotify opts (overrideTimes up svc sid d (.error ())) f subs today seen
        = checkAndNotify opts (overrideTimes up svc sid d (.ok [])) f subs today seen) := by
  refine ⟨?_, ?_, ?_⟩
  · apply checkAndNotify_congr
    · intro l v; exact Or.inl rfl
    · intro l v df dt s
      simp only [overrideDates]
      by_cases h : v = svc ∧ s = sid
      · rw [if_pos h, if_pos h]
        exact Or.inr ⟨Or.inl rfl, Or.inr rfl⟩
      · rw [if_neg h, if_neg h]
        exact Or.inl rfl
    · intro l v e s; exact Or.inl rfl
    · rfl
    · rfl
  · apply checkAndNotify_congr
    · intro l v
      simp only [overrideStaff]
      by_cases h : v = svc
      · rw [if_pos h, if_pos h]
        exact Or.inr ⟨Or.inl rfl, Or.inr rfl⟩
      · rw [if_neg h, if_neg h]
        exact Or.inl rfl
    · intro l v df dt s; exact Or.inl rfl
    · intro l v e s; exact Or.inl rfl
    · rfl
    · rfl
  · apply checkAndNotify_congr
    · intro l v; exact Or.inl rfl
    · intro l v df dt s; exact Or.inl rfl
    · intro l v e s
      simp only [overrideTimes]
      by_cases h : v = svc ∧ s = sid ∧ e = d
      · rw [if_pos h, if_pos h]
        exact Or.inr ⟨Or.inl rfl, Or.inr rfl⟩
      · rw [if_neg h, if_neg h]
        exact Or.inl rfl
    · rfl
    · rfl

/-! ### Claims C8 and C9 — pruning and the configuration guard -/

theorem processSlot_pruneCalls (f : Faults) (subs : List Int) (serviceID staffID : Int)
    (t : String) (seen : List String) :
    (processSlot f subs serviceID staffID t seen).2.pruneCalls = [] := by
  rw [processSlot]
  split_ifs <;> rfl

theorem emit_append_pruneCalls (a b : Emit) :
    (a ++ b).pruneCalls = a.pruneCalls ++ b.pruneCalls := rfl

theorem processSlots_pruneCalls (f : Faults) (subs : List Int) (serviceID staffID : Int)
    (times : List String) : ∀ seen : List String,
    (processSlots f subs serviceID staffID times seen).2.pruneCalls = [] := by
  induction times with
  | nil => intro seen; rfl
  | cons t rest ih =>
    intro seen
    simp only [processSlots_cons, emit_append_pruneCalls,
      processSlot_pruneCalls, ih, List.append_nil]

theorem processDate_pruneCalls (up : Upstream) (f : Faults) (subs : List Int)
    (locationID serviceID staffID : Int) (date : String) (seen : List String) :
    (processDate up f subs locationID serviceID staffID date seen).2.pruneCalls = [] := by
  rw [processDate]
  rcases up.getTimes locationID serviceID date staffID with u | times
  · rfl
  · simp only [emit_append_pruneCalls, processSlots_pruneCalls, List.append_nil]

theorem processDates_pruneCalls (up : Upstream) (f : Faults) (subs : List Int)
    (locationID serviceID staffID : Int) (dates : List String) :
    ∀ seen : List String,
    (processDates up f subs locationID serviceID staffID dates seen).2.pruneCalls = [] := by
  induction dates with
  | nil => intro seen; rfl
  | cons d rest ih =>
    intro seen
    simp only [processDates_cons, emit_append_pruneCalls,
      processDate_pruneCalls, ih, List.append_nil]

theorem processStaff_pruneCalls (up : Upstream) (f : Faults) (subs : List Int)
    (locationID serviceID staffID : Int) (today : String) (seen : List String) :
    (processStaff up f subs locationID serviceID staffID today seen).2.pruneCalls = [] := by
  rw [processStaff]
  rcases up.getDates locationID serviceID today farFuture staffID with u | dates
  · rfl
  · simp only [emit_append_pruneCalls, processDates_pruneCalls, List.append_nil]

theorem processStaffList_pruneCalls (up : Upstream) (f : Faults) (subs : List Int)
    (locationID serviceID : Int) (staffIDs : List Int) (today : String) :
    ∀ seen : List String,
    (processStaffList up f subs locationID serviceID staffIDs today seen).2.pruneCalls = [] := by
  induction staffIDs with
  | nil => intro seen; rfl
  | cons sid rest ih =>
    intro seen
    simp only [processStaffList_cons, emit_append_pruneCalls,
      processStaff_pruneCalls, ih, List.append_nil]

theorem processService_pruneCalls (up : Upstream) (f : Faults) (subs : List Int)
    (locationID serviceID : Int) (today : String) (seen : List String) :
    (processService up f subs locationID serviceID today seen).2.pruneCalls = [] := by
  rw [processService]
  rcases up.getStaff locationID serviceID with u | staffIDs
  · rfl
  · rcases staffIDs with _ | ⟨sid, rest⟩
    · rfl
    · simp [List.isEmpty_cons, emit_append_pruneCalls,
        processStaffList_pruneCalls]

theorem processServices_pruneCalls (up : Upstream) (f : Faults) (subs : List Int)
    (locationID : Int) (serviceIDs : List Int) (today : String) :
    ∀ seen : List String,
    (processServices up f subs locationID serviceIDs today seen).2.pruneCalls = [] := by
  induction serviceIDs with
  | nil => intro seen; rfl
  | cons svc rest ih =>
    intro seen
    simp only [processServices_cons, emit_append_pruneCalls,
      processService_pruneCalls, ih, List.append_nil]

/-- C8: after every sweep that passes the configuration guard — whatever the upstream
responses and whatever storage faults occurred, i.e. whether the sweep succeeded or
partially failed — the tick calls the pruning operation `CleanOldSlots` exactly once,
with the fixed 7-day retention window `7 * 24 * time.Hour`; and a pruning failure
changes nothing observable about the tick (the tick's result is independent of the
`cleanFail` fault flag — in the code the error is only logged). -/
theorem c8_prune_once_per_sweep :
    (∀ (opts : NotifierOptions) (up : Upstream) (f : Faults) (subs : List Int)
        (today : String) (seen : List String),
        opts.ServiceIDs ≠ [] → opts.LocationID ≠ 0 →
        (checkAndNotify opts up f subs today seen).2.pruneCalls = [cleanRetention])
    ∧ (∀ (opts : NotifierOptions) (up : Upstream)
        (isf mf : String → Bool) (b : Bool) (subs : List Int)
        (today : String) (seen : List String),
        checkAndNotify opts up ⟨isf, mf, b⟩ subs today seen
          = checkAndNotify opts up ⟨isf, mf, false⟩ subs today seen) := by
  constructor
  · intro opts up f subs today seen h1 h2
    have hg1 : opts.ServiceIDs.isEmpty = false := by
      cases hh : opts.ServiceIDs.isEmpty with
      | false => rfl
      | true => exact absurd (List.isEmpty_iff.mp hh) h1
    have hg2 : (opts.LocationID == 0) = false := by
      simpa using h2
    rw [checkAndNotify, hg1, hg2]
    simp [emit_append_pruneCalls, processServices_pruneCalls]
  · intro opts up isf mf b subs today seen
    exact checkAndNotify_congr up up ⟨isf, mf, b⟩ ⟨isf, mf, false⟩
      (fun l v => Or.inl rfl) (fun l v df dt s => Or.inl rfl)
      (fun l v e s => Or.inl rfl) rfl rfl opts subs today seen

theorem c8_prune_once_per_sweep_witness :
    (checkAndNotify optsFirstDiscovery upFirstDiscovery noFaults [] "2025-05-30" []).2.pruneCalls
      = [cleanRetention] :=
  c8_prune_once_per_sweep.1 optsFirstDiscovery upFirstDiscovery noFaults [] "2025-05-30" []
    (by decide) (by decide)

/-- C9: if the configured service list is empty or the target location id is unset
(zero), the tick is skipped entirely: `checkAndNotify` returns with the seen-set
unchanged and a completely empty effect trace — no listing call, no dedup-oracle
call, no notification, and not even the pruning call. In the code this skip is only
logged (`checkAndNotify` returns normally), not an error. -/
theorem c9_guard_skips_tick (opts : NotifierOptions) (up : Upstream) (f : Faults)
    (subs : List Int) (today : String) (seen : List String)
    (h : opts.ServiceIDs = [] ∨ opts.LocationID = 0) :
    checkAndNotify opts up f subs today seen = (seen, {}) := by
  rw [checkAndNotify]
  rcases h with h | h
  · rw [h]
    rfl
  · rw [h]
    simp

theorem c9_guard_skips_tick_witness :
    checkAndNotify { LocationID := 0, ServiceIDs := [5] } upFirstDiscovery noFaults
        [1] "2025-05-30" [] = ([], {}) :=
  c9_guard_skips_tick { LocationID := 0, ServiceIDs := [5] } upFirstDiscovery noFaults
    [1] "2025-05-30" [] (Or.inr rfl)

/-! ### Claim C10 — a failing MarkSlotSeen still notifies, and the slot stays unseen -/

/-- C10: when the oracle reports a slot as not seen and the `MarkSlotSeen` call
fails, the sweep still records the mark attempt, still counts the slot as new and
still notifies every current subscriber (the error is only logged); and because the
failed mark inserts nothing, the seen-set is unchanged, so the very same slot is
notified again when the next tick processes it. -/
theorem c10_mark_failure_still_notifies (f : Faults) (subs : List Int)
    (serviceID staffID : Int) (t : String) (seen : List String)
    (hseen : f.isSeenFail (buildKey serviceID staffID t) = false)
    (hmark : f.markFail (buildKey serviceID staffID t) = true)
    (hnot : buildKey serviceID staffID t ∉ seen) :
    processSlot f subs serviceID staffID t seen
      = (seen,
          { seenChecks := [buildKey serviceID staffID t], totalChecks := 1,
            markCalls := [buildKey serviceID staffID t], newSlotsFound := 1,
            notifs := subs.map (fun chatID => (chatID, serviceID, staffID, t)) })
    ∧ (processSlot f subs serviceID staffID t
          (processSlot f subs serviceID staffID t seen).1).2.notifs
        = subs.map (fun chatID => (chatID, serviceID, staffID, t)) := by
  have h1 : processSlot f subs serviceID staffID t seen
      = (seen,
          { seenChecks := [buildKey serviceID staffID t], totalChecks := 1,
            markCalls := [buildKey serviceID staffID t], newSlotsFound := 1,
            notifs := subs.map (fun chatID => (chatID, serviceID, staffID, t)) }) := by
    rw [processSlot]
    rw [hseen, hmark]
    simp [hnot]
  refine ⟨h1, ?_⟩
  rw [h1]
  rw [processSlot, hseen, hmark]
  simp [hnot]

theorem c10_mark_failure_still_notifies_witness :
    processSlot ⟨fun _ => false, fun _ => true, false⟩ [7] 100 42 "2025-06-01T10:00:00+03:00" []
      = ([],
          { seenChecks := [buildKey 100 42 "2025-06-01T10:00:00+03:00"], totalChecks := 1,
            markCalls := [buildKey 100 42 "2025-06-01T10:00:00+03:00"], newSlotsFound := 1,
            notifs := [7].map (fun chatID => (chatID, 100, 42, "2025-06-01T10:00:00+03:00")) })
    ∧ (processSlot ⟨fun _ => false, fun _ => true, false⟩ [7] 100 42 "2025-06-01T10:00:00+03:00"
          (processSlot ⟨fun _ => false, fun _ => true, false⟩ [7] 100 42
            "2025-06-01T10:00:00+03:00" []).1).2.notifs
        = [7].map (fun chatID => (chatID, 100, 42, "2025-06-01T10:00:00+03:00")) :=
  c10_mark_failure_still_notifies ⟨fun _ => false, fun _ => true, false⟩ [7] 100 42
    "2025-06-01T10:00:00+03:00" [] rfl rfl (by simp)

/-! ### Claim C2 — seen slots are no-ops and the sweep is idempotent -/

theorem emit_append_markCalls (a b : Emit) :
    (a ++ b).markCalls = a.markCalls ++ b.markCalls := rfl

theorem emit_append_notifs (a b : Emit) :
    (a ++ b).notifs = a.notifs ++ b.notifs := rfl

theorem emit_append_newSlotsFound (a b : Emit) :
    (a ++ b).newSlotsFound = a.newSlotsFound + b.newSlotsFound := rfl

theorem processSlot_mono (f : Faults) (subs : List Int) (serviceID staffID : Int)
    (t : String) (seen : List String) (k : String) (hk : k ∈ seen) :
    k ∈ (processSlot f subs serviceID staffID t seen).1 := by
  rw [processSlot]
  split_ifs <;> simp [hk]

theorem processSlots_mono (f : Faults) (subs : List Int) (serviceID staffID : Int)
    (times : List String) : ∀ (seen : List String) (k : String), k ∈ seen →
    k ∈ (processSlots f subs serviceID staffID times seen).1 := by
  induction times with
  | nil => intro seen k hk; exact hk
  | cons t rest ih =>
    intro seen k hk
    simp only [processSlots_cons]
    exact ih _ k (processSlot_mono f subs serviceID staffID t seen k hk)

theorem processDate_mono (up : Upstream) (f : Faults) (subs : List Int)
    (locationID serviceID staffID : Int) (date : String) (seen : List String)
    (k : String) (hk : k ∈ seen) :
    k ∈ (processDate up f subs locationID serviceID staffID date seen).1 := by
  rcases h : up.getTimes locationID serviceID date staffID with u | times
  · simp only [processDate, h]
    exact hk
  · simp only [processDate, h]
    exact processSlots_mono f subs serviceID staffID times seen k hk

theorem processDates_mono (up : Upstream) (f : Faults) (subs : List Int)
    (locationID serviceID staffID : Int) (dates : List String) :
    ∀ (seen : List String) (k : String), k ∈ seen →
    k ∈ (processDates up f subs locationID serviceID staffID dates seen).1 := by
  induction dates with
  | nil => intro seen k hk; exact hk
  | cons d rest ih =>
    intro seen k hk
    simp only [processDates_cons]
    exact ih _ k (processDate_mono up f subs locationID serviceID staffID d seen k hk)

theorem processStaff_mono (up : Upstream) (f : Faults) (subs : List Int)
    (locationID serviceID staffID : Int) (today : String) (seen : List String)
    (k : String) (hk : k ∈ seen) :
    k ∈ (processStaff up f subs locationID serviceID staffID today seen).1 := by
  rcases h : up.getDates locationID serviceID today farFuture staffID with u | dates
  · simp only [processStaff, h]
    exact hk
  · simp only [processStaff, h]
    exact processDates_mono up f subs locationID serviceID staffID dates seen k hk

theorem processStaffList_mono (up : Upstream) (f : Faults) (subs : List Int)
    (locationID serviceID : Int) (staffIDs : List Int) (today : String) :
    ∀ (seen : List String) (k : String), k ∈ seen →
    k ∈ (processStaffList up f subs locationID serviceID staffIDs today seen).1 := by
  induction staffIDs with
  | nil => intro seen k hk; exact hk
  | cons sid rest ih =>
    intro seen k hk
    simp only [processStaffList_cons]
    exact ih _ k (processStaff_mono up f subs locationID serviceID sid today seen k hk)

theorem processService_mono (up : Upstream) (f : Faults) (subs : List Int)
    (locationID serviceID : Int) (today : String) (seen : List String)
    (k : String) (hk : k ∈ seen) :
    k ∈ (processService up f subs locationID serviceID today seen).1 := by
  rcases h : up.getStaff locationID serviceID with u | staffIDs
  · simp only [processService, h]
    exact hk
  · simp only [processService, h]
    rcases staffIDs with _ | ⟨sid, rest⟩
    · simp
      exact hk
    · simp
      exact processStaffList_mono up f subs locationID serviceID (sid :: rest) today seen k hk

theorem processServices_mono (up : Upstream) (f : Faults) (subs : List Int)
    (locationID : Int) (serviceIDs : List Int) (today : String) :
    ∀ (seen : List String) (k : String), k ∈ seen →
    k ∈ (processServices up f subs locationID serviceIDs today seen).1 := by
  induction serviceIDs with
  | nil => intro seen k hk; exact hk
  | cons svc rest ih =>
    intro seen k hk
    simp only [processServices_cons]
    exact ih _ k (processService_mono up f subs locationID svc today seen k hk)

theorem processSlot_complete (subs : List Int) (serviceID staffID : Int) (t : String)
    (seen : List String) :
    buildKey serviceID staffID t ∈ (processSlot noFaults subs serviceID staffID t seen).1 := by
  rw [processSlot]
  by_cases h : buildKey serviceID staffID t ∈ seen <;> simp [noFaults, h]

theorem processSlots_complete (subs : List Int) (serviceID staffID : Int)
    (times : List String) : ∀ (seen : List String) (k : String),
    k ∈ slotKeys serviceID staffID times →
    k ∈ (processSlots noFaults subs serviceID staffID times seen).1 := by
  induction times with
  | nil => intro seen k hk; cases hk
  | cons t rest ih =>
    intro seen k hk
    simp only [slotKeys, List.map_cons, List.mem_cons] at hk
    simp only [processSlots_cons]
    rcases hk with rfl | hk
    · exact processSlots_mono noFaults subs serviceID staffID rest _ _
        (processSlot_complete subs serviceID staffID t seen)
    · exact ih _ k hk

theorem processDate_complete (up : Upstream) (subs : List Int)
    (locationID serviceID staffID : Int) (date : String) (seen : List String)
    (k : String)
    (hk : k ∈ (match up.getTimes locationID serviceID date staffID with
               | .error _ => []
               | .ok times => slotKeys serviceID staffID times)) :
    k ∈ (processDate up noFaults subs locationID serviceID staffID date seen).1 := by
  rcases h : up.getTimes locationID serviceID date staffID with u | times
  · rw [h] at hk
    cases hk
  · rw [h] at hk
    simp only [processDate, h]
    exact processSlots_complete subs serviceID staffID times seen k hk

theorem processDates_complete (up : Upstream) (subs : List Int)
    (locationID serviceID staffID : Int) (dates : List String) :
    ∀ (seen : List String) (k : String),
    k ∈ dateKeys up locationID serviceID staffID dates →
    k ∈ (processDates up noFaults subs locationID serviceID staffID dates seen).1 := by
  induction dates with
  | nil => intro seen k hk; cases hk
  | cons d rest ih =>
    intro seen k hk
    rw [dateKeys] at hk
    rcases List.mem_append.mp hk with hk | hk
    · simp only [processDates_cons]
      exact processDates_mono up noFaults subs locationID serviceID staffID rest _ k
        (processDate_complete up subs locationID serviceID staffID d seen k hk)
    · simp only [processDates_cons]
      exact ih _ k hk

theorem processStaff_complete (up : Upstream) (subs : List Int)
    (locationID serviceID staffID : Int) (today : String) (seen : List String)
    (k : String)
    (hk : k ∈ (match up.getDates locationID serviceID today farFuture staffID with
               | .error _ => []
               | .ok dates => dateKeys up locationID serviceID staffID dates)) :
    k ∈ (processStaff up noFaults subs locationID serviceID staffID today seen).1 := by
  rcases h : up.getDates locationID serviceID today farFuture staffID with u | dates
  · rw [h] at hk
    cases hk
  · rw [h] at hk
    simp only [processStaff, h]
    exact processDates_complete up subs locationID serviceID staffID dates seen k hk

theorem processStaffList_complete (up : Upstream) (subs : List Int)
    (locationID serviceID : Int) (staffIDs : List Int) (today : String) :
    ∀ (seen : List String) (k : String),
    k ∈ staffKeys up locationID serviceID staffIDs today →
    k ∈ (processStaffList up noFaults subs locationID serviceID staffIDs today seen).1 := by
  induction staffIDs with
  | nil => intro seen k hk; cases hk
  | cons sid rest ih =>
    intro seen k hk
    rw [staffKeys] at hk
    rcases List.mem_append.mp hk with hk | hk
    · simp only [processStaffList_cons]
      exact processStaffList_mono up noFaults subs locationID serviceID rest today _ k
        (processStaff_complete up subs locationID serviceID sid today seen k hk)
    · simp only [processStaffList_cons]
      exact ih _ k hk

theorem processService_complete (up : Upstream) (subs : List Int)
    (locationID serviceID : Int) (today : String) (seen : List String) (k : String)
    (hk : k ∈ (match up.getStaff locationID serviceID with
               | .error _ => []
               | .ok staffIDs =>
                 if staffIDs.isEmpty then []
                 else staffKeys up locationID serviceID staffIDs today)) :
    k ∈ (processService up noFaults subs locationID serviceID today seen).1 := by
  rcases h : up.getStaff locationID serviceID with u | staffIDs
  · rw [h] at hk
    cases hk
  · rw [h] at hk
    simp only [processService, h]
    rcases staffIDs with _ | ⟨sid, rest⟩
    · cases hk
    · simp only [List.isEmpty_cons] at hk ⊢
      simp at hk ⊢
      exact processStaffList_complete up subs locationID serviceID (sid :: rest) today seen k hk

theorem processServices_complete (up : Upstream) (subs : List Int)
    (locationID : Int) (serviceIDs : List Int) (today : String) :
    ∀ (seen : List String) (k : String),
    k ∈ serviceKeys up locationID serviceIDs today →
    k ∈ (processServices up noFaults subs locationID serviceIDs today seen).1 := by
  induction serviceIDs with
  | nil => intro seen k hk; cases hk
  | cons svc rest ih =>
    intro seen k hk
    rw [serviceKeys] at hk
    rcases List.mem_append.mp hk with hk | hk
    · simp only [processServices_cons]
      exact processServices_mono up noFaults subs locationID rest today _ k
        (processService_complete up subs locationID svc today seen k hk)
    · simp only [processServices_cons]
      exact ih _ k hk

theorem processSlot_seen_noop (f : Faults) (subs : List Int) (serviceID staffID : Int)
    (t : String) (seen : List String)
    (hf : f.isSeenFail (buildKey serviceID staffID t) = false)
    (hmem : buildKey serviceID staffID t ∈ seen) :
    processSlot f subs serviceID staffID t seen
      = (seen, { seenChecks := [buildKey serviceID staffID t], totalChecks := 1 }) := by
  rw [processSlot, hf]
  simp [hmem]

theorem processSlots_noop (subs : List Int) (serviceID staffID : Int)
    (times : List String) : ∀ seen : List String,
    (∀ k ∈ slotKeys serviceID staffID times, k ∈ seen) →
    (processSlots noFaults subs serviceID staffID times seen).1 = seen
    ∧ (processSlots noFaults subs serviceID staffID times seen).2.markCalls = []
    ∧ (processSlots noFaults subs serviceID staffID times seen).2.notifs = []
    ∧ (processSlots noFaults subs serviceID staffID times seen).2.newSlotsFound = 0 := by
  induction times with
  | nil => intro seen h; exact ⟨rfl, rfl, rfl, rfl⟩
  | cons t rest ih =>
    intro seen h
    have hmem : buildKey serviceID staffID t ∈ seen := h _ (by simp [slotKeys])
    have h1 := processSlot_seen_noop noFaults subs serviceID staffID t seen rfl hmem
    have ih' := ih seen (fun k hk => h k (by
      simp only [slotKeys, List.map_cons, List.mem_cons]
      exact Or.inr (by simpa [slotKeys] using hk)))
    simp only [processSlots_cons, h1]
    refine ⟨ih'.1, ?_, ?_, ?_⟩ <;>
      simp [emit_append_markCalls, emit_append_notifs, emit_append_newSlotsFound,
        ih'.2.1, ih'.2.2.1, ih'.2.2.2]

theorem processDate_noop (up : Upstream) (subs : List Int)
    (locationID serviceID staffID : Int) (date : String) (seen : List String)
    (h : ∀ k ∈ (match up.getTimes locationID serviceID date staffID with
                | .error _ => []
                | .ok times => slotKeys serviceID staffID times), k ∈ seen) :
    (processDate up noFaults subs locationID serviceID staffID date seen).1 = seen
    ∧ (processDate up noFaults subs locationID serviceID staffID date seen).2.markCalls = []
    ∧ (processDate up noFaults subs locationID serviceID staffID date seen).2.notifs = []
    ∧ (processDate up noFaults subs locationID serviceID staffID date seen).2.newSlotsFound = 0 := by
  rcases ht : up.getTimes locationID serviceID date staffID with u | times
  · simp only [processDate, ht]
    simp
  · rw [ht] at h
    obtain ⟨h1, h2, h3, h4⟩ := processSlots_noop subs serviceID staffID times seen h
    simp only [processDate, ht]
    refine ⟨h1, ?_, ?_, ?_⟩ <;>
      simp [emit_append_markCalls, emit_append_notifs, emit_append_newSlotsFound, h2, h3, h4]


theorem processDates_noop (up : Upstream) (subs : List Int)
    (locationID serviceID staffID : Int) (dates : List String) :
    ∀ seen : List String,
    (∀ k ∈ dateKeys up locationID serviceID staffID dates, k ∈ seen) →
    (processDates up noFaults subs locationID serviceID staffID dates seen).1 = seen
    ∧ (processDates up noFaults subs locationID serviceID staffID dates seen).2.markCalls = []
    ∧ (processDates up noFaults subs locationID serviceID staffID dates seen).2.notifs = []
    ∧ (processDates up noFaults subs locationID serviceID staffID dates seen).2.newSlotsFound = 0 := by
  induction dates with
  | nil => intro seen h; exact ⟨rfl, rfl, rfl, rfl⟩
  | cons d rest ih =>
    intro seen h
    have hhead := processDate_noop up subs locationID serviceID staffID d seen
      (fun k hk => h k (by rw [dateKeys]; exact List.mem_append.mpr (Or.inl hk)))
    have ih' := ih seen
      (fun k hk => h k (by rw [dateKeys]; exact List.mem_append.mpr (Or.inr hk)))
    simp only [processDates_cons, hhead.1]
    refine ⟨ih'.1, ?_, ?_, ?_⟩ <;>
      simp [emit_append_markCalls, emit_append_notifs, emit_append_newSlotsFound,
        hhead.2.1, hhead.2.2.1, hhead.2.2.2, ih'.2.1, ih'.2.2.1, ih'.2.2.2]

theorem processStaff_noop (up : Upstream) (subs : List Int)
    (locationID serviceID staffID : Int) (today : String) (seen : List String)
    (h : ∀ k ∈ (match up.getDates locationID serviceID today farFuture staffID with
                | .error _ => []
                | .ok dates => dateKeys up locationID serviceID staffID dates), k ∈ seen) :
    (processStaff up noFaults subs locationID serviceID staffID today seen).1 = seen
    ∧ (processStaff up noFaults subs locationID serviceID staffID today seen).2.markCalls = []
    ∧ (processStaff up noFaults subs locationID serviceID staffID today seen).2.notifs = []
    ∧ (processStaff up noFaults subs locationID serviceID staffID today seen).2.newSlotsFound = 0 := by
  rcases hd : up.getDates locationID serviceID today farFuture staffID with u | dates
  · simp only [processStaff, hd]
    simp
  · rw [hd] at h
    obtain ⟨h1, h2, h3, h4⟩ := processDates_noop up subs locationID serviceID staffID dates seen h
    simp only [processStaff, hd]
    refine ⟨h1, ?_, ?_, ?_⟩ <;>
      simp [emit_append_markCalls, emit_append_notifs, emit_append_newSlotsFound, h2, h3, h4]

theorem processStaffList_noop (up : Upstream) (subs : List Int)
    (locationID serviceID : Int) (staffIDs : List Int) (today : String) :
    ∀ seen : List String,
    (∀ k ∈ staffKeys up locationID serviceID staffIDs today, k ∈ seen) →
    (processStaffList up noFaults subs locationID serviceID staffIDs today seen).1 = seen
    ∧ (processStaffList up noFaults subs locationID serviceID staffIDs today seen).2.markCalls = []
    ∧ (processStaffList up noFaults subs locationID serviceID staffIDs today seen).2.notifs = []
    ∧ (processStaffList up noFaults subs locationID serviceID staffIDs today seen).2.newSlotsFound = 0 := by
  induction staffIDs with
  | nil => intro seen h; exact ⟨rfl, rfl, rfl, rfl⟩
  | cons sid rest ih =>
    intro seen h
    have hhead := processStaff_noop up subs locationID serviceID sid today seen
      (fun k hk => h k (by rw [staffKeys]; exact List.mem_append.mpr (Or.inl hk)))
    have ih' := ih seen
      (fun k hk => h k (by rw [staffKeys]; exact List.mem_append.mpr (Or.inr hk)))
    simp only [processStaffList_cons, hhead.1]
    refine ⟨ih'.1, ?_, ?_, ?_⟩ <;>
      simp [emit_append_markCalls, emit_append_notifs, emit_append_newSlotsFound,
        hhead.2.1, hhead.2.2.1, hhead.2.2.2, ih'.2.1, ih'.2.2.1, ih'.2.2.2]

theorem processService_noop (up : Upstream) (subs : List Int)
    (locationID serviceID : Int) (today : String) (seen : List String)
    (h : ∀ k ∈ (match up.getStaff locationID serviceID with
                | .error _ => []
                | .ok staffIDs =>
                  if staffIDs.isEmpty then []
                  else staffKeys up locationID serviceID staffIDs today), k ∈ seen) :
    (processService up noFaults subs locationID serviceID today seen).1 = seen
    ∧ (processService up noFaults subs locationID serviceID today seen).2.markCalls = []
    ∧ (processService up noFaults subs locationID serviceID today seen).2.notifs = []
    ∧ (processService up noFaults subs locationID serviceID today seen).2.newSlotsFound = 0 := by
  rcases hs : up.getStaff locationID serviceID with u | staffIDs
  · simp only [processService, hs]
    simp
  · rw [hs] at h
    rcases staffIDs with _ | ⟨sid, rest⟩
    · simp only [processService, hs, List.isEmpty_nil, if_true]
      simp
    · simp only [List.isEmpty_cons] at h
      rw [if_neg (by simp)] at h
      obtain ⟨h1, h2, h3, h4⟩ :=
        processStaffList_noop up subs locationID serviceID (sid :: rest) today seen (by
          intro k hk
          exact h k (by simpa using hk))
      simp only [processService, hs, List.isEmpty_cons]
      refine ⟨?_, ?_, ?_, ?_⟩ <;>
        simp [emit_append_markCalls, emit_append_notifs, emit_append_newSlotsFound,
          h1, h2, h3, h4]

theorem processServices_noop (up : Upstream) (subs : List Int)
    (locationID : Int) (serviceIDs : List Int) (today : String) :
    ∀ seen : List String,
    (∀ k ∈ serviceKeys up locationID serviceIDs today, k ∈ seen) →
    (processServices up noFaults subs locationID serviceIDs today seen).1 = seen
    ∧ (processServices up noFaults subs locationID serviceIDs today seen).2.markCalls = []
    ∧ (processServices up noFaults subs locationID serviceIDs today seen).2.notifs = []
    ∧ (processServices up noFaults subs locationID serviceIDs today seen).2.newSlotsFound = 0 := by
  induction serviceIDs with
  | nil => intro seen h; exact ⟨rfl, rfl, rfl, rfl⟩
  | cons svc rest ih =>
    intro seen h
    have hhead := processService_noop up subs locationID svc today seen
      (fun k hk => h k (by rw [serviceKeys]; exact List.mem_append.mpr (Or.inl hk)))
    have ih' := ih seen
      (fun k hk => h k (by rw [serviceKeys]; exact List.mem_append.mpr (Or.inr hk)))
    simp only [processServices_cons, hhead.1]
    refine ⟨ih'.1, ?_, ?_, ?_⟩ <;>
      simp [emit_append_markCalls, emit_append_notifs, emit_append_newSlotsFound,
        hhead.2.1, hhead.2.2.1, hhead.2.2.2, ih'.2.1, ih'.2.2.1, ih'.2.2.2]

/-- C2: a slot whose key the dedup oracle reports as already seen triggers no
`MarkSlotSeen` call and no broadcast — the slot's processing emits only the oracle
query and the check counter; and consequently the sweep is idempotent: with a
normally-behaving storage, running `checkAndNotify` a second time with the same
configuration, the same upstream responses and the seen-set left by the first run
produces zero `MarkSlotSeen` calls, zero notifications and zero new slots. -/
theorem c2_seen_noop_and_idempotent :
    (∀ (f : Faults) (subs : List Int) (serviceID staffID : Int) (t : String)
        (seen : List String),
        f.isSeenFail (buildKey serviceID staffID t) = false →
        buildKey serviceID staffID t ∈ seen →
        processSlot f subs serviceID staffID t seen
          = (seen, { seenChecks := [buildKey serviceID staffID t], totalChecks := 1 }))
    ∧ (∀ (opts : NotifierOptions) (up : Upstream) (subs : List Int) (today : String)
        (seen0 : List String),
        (checkAndNotify opts up noFaults subs today
            (checkAndNotify opts up noFaults subs today seen0).1).2.markCalls = []
        ∧ (checkAndNotify opts up noFaults subs today
            (checkAndNotify opts up noFaults subs today seen0).1).2.notifs = []
        ∧ (checkAndNotify opts up noFaults subs today
            (checkAndNotify opts up noFaults subs today seen0).1).2.newSlotsFound = 0) := by
  constructor
  · exact processSlot_seen_noop
  · intro opts up subs today seen0
    cases hg : (opts.ServiceIDs.isEmpty || (opts.LocationID == 0)) with
    | true =>
      rw [checkAndNotify, hg]
      simp
    | false =>
      have hfirst : (checkAndNotify opts up noFaults subs today seen0).1
          = (processServices up noFaults subs opts.LocationID opts.ServiceIDs today seen0).1 := by
        rw [checkAndNotify, hg]
        simp
      have hcomplete : ∀ k ∈ serviceKeys up opts.LocationID opts.ServiceIDs today,
          k ∈ (checkAndNotify opts up noFaults subs today seen0).1 := by
        intro k hk
        rw [hfirst]
        exact processServices_complete up subs opts.LocationID opts.ServiceIDs today seen0 k hk
      obtain ⟨h1, h2, h3, h4⟩ := processServices_noop up subs opts.LocationID opts.ServiceIDs
        today ((checkAndNotify opts up noFaults subs today seen0).1) hcomplete
      rw [checkAndNotify, hg]
      simp [emit_append_markCalls, emit_append_notifs, emit_append_newSlotsFound, h2, h3, h4]

theorem c2_seen_noop_and_idempotent_witness :
    processSlot noFaults [7] 100 42 "2025-06-01T10:00:00+03:00"
        ["svc=100|staff=42|dt=2025-06-01T10:00:00+03:00"]
      = (["svc=100|staff=42|dt=2025-06-01T10:00:00+03:00"],
          { seenChecks := [buildKey 100 42 "2025-06-01T10:00:00+03:00"], totalChecks := 1 }) :=
  c2_seen_noop_and_idempotent.1 noFaults [7] 100 42 "2025-06-01T10:00:00+03:00"
    ["svc=100|staff=42|dt=2025-06-01T10:00:00+03:00"] rfl (by decide)

/-! ### Claim C4 — session-token lifecycle -/

theorem reachable_token_empty_exp_zero {st : ClientState} (h : ReachableClient st) :
    st.userToken = "" → st.tokenExp = 0 := by
  induction h with
  | init => intro _; rfl
  | step st now ex hst ih =>
    intro htok
    by_cases h1 : now < st.tokenExp
    · rw [authenticate, if_pos h1] at htok ⊢
      exact ih htok
    · by_cases h2 : (ex.success && ex.userToken != "") = true
      · rw [authenticate, if_neg h1, if_pos h2] at htok
        exfalso
        simp only [Bool.and_eq_true, bne_iff_ne] at h2
        exact h2.2 htok
      · rw [authenticate, if_neg h1, if_neg h2] at htok ⊢
        exact ih htok

/-- C4: on every `authenticate` step (which `makeRequest` performs before building
the authorization header of any outbound listing call): (1) from any reachable
client state, if no session token exists or the stored expiry is not strictly in
the future, a login exchange is performed; (2) a successful login sets the new
expiry to `now` plus the provider token lifetime (5 minutes) minus the fixed
30-second safety margin — the code's `now + 4*time.Minute + 30*time.Second`; and
(3) whenever `authenticate` returns without error the stored expiry is strictly in
the future at that instant, and (from a reachable state) a non-empty token is in
place, so the outbound call that follows carries a token whose expiry is strictly
in the future at send time. -/
theorem c4_token_refresh_lifecycle :
    (∀ st : ClientState, ReachableClient st → ∀ (now : Nat) (ex : AuthExchange),
        st.userToken = "" ∨ st.tokenExp ≤ now →
        (authenticate st now ex).loggedIn = true)
    ∧ (∀ (st : ClientState) (now : Nat) (ex : AuthExchange),
        st.tokenExp ≤ now → ex.success = true → ex.userToken ≠ "" →
        (authenticate st now ex).state.tokenExp = now + (tokenLifetime - refreshMargin))
    ∧ (∀ (st : ClientState) (now : Nat) (ex : AuthExchange),
        (authenticate st now ex).ok = true →
        now < (authenticate st now ex).state.tokenExp
        ∧ (ReachableClient st → (authenticate st now ex).state.userToken ≠ "")) := by
  refine ⟨?_, ?_, ?_⟩
  · intro st hst now ex h
    have hexp : ¬ now < st.tokenExp := by
      rcases h with h | h
      · have := reachable_token_empty_exp_zero hst h
        omega
      · omega
    rw [authenticate, if_neg hexp]
    by_cases h2 : (ex.success && ex.userToken != "") = true
    · rw [if_pos h2]
    · rw [if_neg h2]
  · intro st now ex h1 h2 h3
    have hexp : ¬ now < st.tokenExp := by omega
    have hc : (ex.success && ex.userToken != "") = true := by
      simp [h2, h3]
    rw [authenticate, if_neg hexp, if_pos hc]
    show now + (4 * 60 + 30) = now + (tokenLifetime - refreshMargin)
    rfl
  · intro st now ex hok
    by_cases h1 : now < st.tokenExp
    · constructor
      · rw [authenticate, if_pos h1]
        exact h1
      · intro hst
        rw [authenticate, if_pos h1]
        intro htok
        have := reachable_token_empty_exp_zero hst htok
        omega
    · by_cases h2 : (ex.success && ex.userToken != "") = true
      · constructor
        · rw [authenticate, if_neg h1, if_pos h2]
          show now < now + (4 * 60 + 30)
          omega
        · intro _
          rw [authenticate, if_neg h1, if_pos h2]
          simp only [Bool.and_eq_true, bne_iff_ne] at h2
          exact h2.2
      · rw [authenticate, if_neg h1, if_neg h2] at hok
        cases hok

theorem c4_token_refresh_lifecycle_witness :
    (authenticate initialClient 0 ⟨true, "tok"⟩).loggedIn = true
    ∧ (authenticate initialClient 0 ⟨true, "tok"⟩).state.tokenExp
        = 0 + (tokenLifetime - refreshMargin)
    ∧ 0 < (authenticate initialClient 0 ⟨true, "tok"⟩).state.tokenExp
    ∧ (authenticate initialClient 0 ⟨true, "tok"⟩).state.userToken ≠ "" :=
  ⟨c4_token_refresh_lifecycle.1 initialClient ReachableClient.init 0 ⟨true, "tok"⟩
      (Or.inl rfl),
    c4_token_refresh_lifecycle.2.1 initialClient 0 ⟨true, "tok"⟩ (Nat.le_refl 0) rfl
      (by decide),
    (c4_token_refresh_lifecycle.2.2 initialClient 0 ⟨true, "tok"⟩ rfl).1,
    (c4_token_refresh_lifecycle.2.2 initialClient 0 ⟨true, "tok"⟩ rfl).2
      ReachableClient.init⟩
